import Mathlib

/-!
Verification of the route-optimization core of the saif-dashboard repository,
file src/api/progressiveOptimizer.ts, against its natural-language
specification.  Every definition below is a shallow embedding of the
corresponding TypeScript function; JavaScript numbers are modelled as real
numbers, JavaScript strings as Lean strings, and the stable Array sort of
JavaScript (stability is guaranteed by the ECMAScript standard) is modelled
by a stable insertion sort.  Math.random draws are threaded explicitly as a
stream of rational numbers in the interval [0,1).
-/

/-- Geographic coordinate, source interface Location (lat, lng in degrees). -/
structure Location where
  lat : ℝ
  lng : ℝ

/-- One transport task record; the optimizer only ever reads its type label. -/
structure TransportTask where
  type : String
deriving DecidableEq

/-- A site: identifier, coordinate, pending transport tasks. -/
structure Site where
  id : String
  location : Location
  transport_tasks : List TransportTask

/-- Test whether pat occurs at the head of s, character by character. -/
def charsLead : List Char → List Char → Bool
  | _, [] => true
  | [], _ :: _ => false
  | c :: cs, p :: ps => c == p && charsLead cs ps

/-- Test whether pat occurs contiguously anywhere in s, the semantics of the
JavaScript String.prototype.includes method. -/
def charsHasSub : List Char → List Char → Bool
  | [], pat => pat.isEmpty
  | s@(_ :: t), pat => charsLead s pat || charsHasSub t pat

/-- Substring test on strings, JavaScript s.includes(pat). -/
def strIncludes (s pat : String) : Bool :=
  charsHasSub s.toList pat.toList

/-- Lower-casing of a string as a character list, the JavaScript
String.prototype.toLowerCase restricted to the ASCII labels the data uses. -/
def lowerChars (s : String) : List Char :=
  s.toList.map Char.toLower

/-- Case-insensitive substring test, JavaScript s.toLowerCase().includes(pat). -/
def lowerIncludes (s pat : String) : Bool :=
  charsHasSub (lowerChars s) pat.toList

/-- Stable insertion of one element into a sorted list: x is placed before
the first element y with le x y true, hence after every earlier element that
compares equal to it. -/
def insertBy {α : Type} (le : α → α → Bool) (x : α) : List α → List α
  | [] => [x]
  | y :: ys => if le x y then x :: y :: ys else y :: insertBy le x ys

/-- Stable sort; models the ECMAScript Array.prototype.sort with a consistent
comparator (the standard guarantees a stable, comparator-sorted result, which
determines the output uniquely). le a b means a may come before b. -/
def stableSort {α : Type} (le : α → α → Bool) : List α → List α
  | [] => []
  | x :: xs => insertBy le x (stableSort le xs)

/-- Weekly capacity constant WEEKLY_PRIORITY_CAPACITY of the source. -/
def WEEKLY_PRIORITY_CAPACITY : ℕ := 43

/-- Priority score of a site, the body of the map in
selectWeeklyPriorityTasks: 10 per task, +50 when some task label contains
the word delivery case-insensitively, +30 for collection, +100 when some
label is exactly competitor_rental. -/
def priorityScore (site : Site) : ℕ :=
  let base := site.transport_tasks.length * 10
  let deliveryBonus :=
    if site.transport_tasks.any (fun t => lowerIncludes t.type "delivery")
    then 50 else 0
  let collectionBonus :=
    if site.transport_tasks.any (fun t => lowerIncludes t.type "collection")
    then 30 else 0
  let rentalBonus :=
    if site.transport_tasks.any (fun t => t.type == "competitor_rental")
    then 100 else 0
  base + deliveryBonus + collectionBonus + rentalBonus

/-- Source function selectWeeklyPriorityTasks: keep sites that have tasks,
score them, sort by descending score (stable), keep the first
weeklyCapacity many. -/
def selectWeeklyPriorityTasks (sites : List Site) (weeklyCapacity : ℕ) : List Site :=
  let sitesWithTasks := sites.filter (fun s => decide (0 < s.transport_tasks.length))
  let sitesWithPriority := sitesWithTasks.map (fun s => (s, priorityScore s))
  let selectedSites :=
    ((stableSort (fun a b => decide (b.2 ≤ a.2)) sitesWithPriority).take
      weeklyCapacity).map (fun p => p.1)
  selectedSites

/-- Source function consolidateSiteTasks: keep the sites that have at least
one pending task, in input order. -/
def consolidateSiteTasks (sites : List Site) : List Site :=
  sites.filter (fun s => decide (0 < s.transport_tasks.length))

section SortLemmas

variable {α : Type} (le : α → α → Bool)

theorem insertBy_perm (x : α) (l : List α) : (insertBy le x l).Perm (x :: l) := by
  induction l with
  | nil => simp [insertBy]
  | cons y ys ih =>
    simp only [insertBy]
    by_cases h : le x y
    · simp [h]
    · simp only [h, if_neg, Bool.false_eq_true, not_false_eq_true]
      exact (ih.cons y).trans (List.Perm.swap x y ys)

theorem stableSort_perm (l : List α) : (stableSort le l).Perm l := by
  induction l with
  | nil => simp [stableSort]
  | cons x xs ih =>
    exact (insertBy_perm le x (stableSort le xs)).trans (ih.cons x)

theorem insertBy_pairwise (htot : ∀ a b, le a b = true ∨ le b a = true)
    (htrans : ∀ a b c, le a b = true → le b c = true → le a c = true)
    (x : α) (l : List α) (hl : l.Pairwise (fun a b => le a b = true)) :
    (insertBy le x l).Pairwise (fun a b => le a b = true) := by
  induction l with
  | nil => simp [insertBy]
  | cons y ys ih =>
    simp only [insertBy]
    by_cases h : le x y = true
    · rw [if_pos h]
      refine List.Pairwise.cons ?_ hl
      intro b hb
      rcases List.mem_cons.mp hb with hb | hb
      · subst hb; exact h
      · rcases List.pairwise_cons.mp hl with ⟨hy, hys⟩
        exact htrans x y b h (hy b hb)
    · rw [if_neg h]
      rcases List.pairwise_cons.mp hl with ⟨hy, hys⟩
      refine List.Pairwise.cons ?_ (ih hys)
      intro b hb
      have hb' := (insertBy_perm le x ys).mem_iff.mp hb
      rcases List.mem_cons.mp hb' with hb' | hb'
      · rw [hb']
        rcases htot x y with hxy | hyx
        · exact absurd hxy h
        · exact hyx
      · exact hy b hb'

theorem stableSort_pairwise (htot : ∀ a b, le a b = true ∨ le b a = true)
    (htrans : ∀ a b c, le a b = true → le b c = true → le a c = true)
    (l : List α) : (stableSort le l).Pairwise (fun a b => le a b = true) := by
  induction l with
  | nil => simp [stableSort]
  | cons x xs ih => exact insertBy_pairwise le htot htrans x _ ih

end SortLemmas

theorem selectWeekly_length_le (sites : List Site) (c : ℕ) :
    (selectWeeklyPriorityTasks sites c).length ≤ c := by
  simp only [selectWeeklyPriorityTasks, List.length_map]
  exact List.length_take_le _ _

theorem selectWeekly_perm_of_le (sites : List Site) (c : ℕ)
    (hall : ∀ s ∈ sites, s.transport_tasks ≠ [])
    (hlen : sites.length ≤ c) :
    (selectWeeklyPriorityTasks sites c).Perm sites := by
  have hfil : sites.filter (fun s => decide (0 < s.transport_tasks.length)) = sites := by
    apply List.filter_eq_self.mpr
    intro a ha
    simpa [List.length_pos] using hall a ha
  simp only [selectWeeklyPriorityTasks, hfil]
  have hperm := stableSort_perm (fun a b : Site × ℕ => decide (b.2 ≤ a.2))
    (sites.map (fun s => (s, priorityScore s)))
  have hlen2 : (stableSort (fun a b : Site × ℕ => decide (b.2 ≤ a.2))
      (sites.map (fun s => (s, priorityScore s)))).length ≤ c := by
    rw [hperm.length_eq, List.length_map]
    exact hlen
  rw [List.take_of_length_le hlen2]
  have := hperm.map (fun p : Site × ℕ => p.1)
  rw [List.map_map] at this
  have h2 : ((fun p : Site × ℕ => p.1) ∘ fun s => (s, priorityScore s)) = id := rfl
  rw [h2, List.map_id] at this
  exact this

theorem selectWeekly_sorted (sites : List Site) (c : ℕ) :
    (selectWeeklyPriorityTasks sites c).Pairwise
      (fun a b => priorityScore b ≤ priorityScore a) := by
  simp only [selectWeeklyPriorityTasks]
  set l := (sites.filter (fun s => decide (0 < s.transport_tasks.length))).map
    (fun s => (s, priorityScore s)) with hl
  have htot : ∀ a b : Site × ℕ, (decide (b.2 ≤ a.2)) = true ∨ (decide (a.2 ≤ b.2)) = true := by
    intro a b
    rcases le_total b.2 a.2 with h | h
    · exact Or.inl (decide_eq_true h)
    · exact Or.inr (decide_eq_true h)
  have htrans : ∀ a b c : Site × ℕ, (decide (b.2 ≤ a.2)) = true → (decide (c.2 ≤ b.2)) = true →
      (decide (c.2 ≤ a.2)) = true := by
    intro a b c hab hbc
    exact decide_eq_true ((of_decide_eq_true hbc).trans (of_decide_eq_true hab))
  have hsorted := stableSort_pairwise (fun a b : Site × ℕ => decide (b.2 ≤ a.2)) htot htrans l
  have hmem : ∀ p ∈ stableSort (fun a b : Site × ℕ => decide (b.2 ≤ a.2)) l,
      p.2 = priorityScore p.1 := by
    intro p hp
    have := (stableSort_perm (fun a b : Site × ℕ => decide (b.2 ≤ a.2)) l).mem_iff.mp hp
    rw [hl] at this
    rcases List.mem_map.mp this with ⟨s, _, rfl⟩
    rfl
  have hsorted2 : (stableSort (fun a b : Site × ℕ => decide (b.2 ≤ a.2)) l).Pairwise
      (fun a b => priorityScore b.1 ≤ priorityScore a.1) := by
    refine List.Pairwise.imp_of_mem ?_ hsorted
    intro a b ha hb hab
    have ha2 := hmem a ha
    have hb2 := hmem b hb
    have := of_decide_eq_true hab
    rw [ha2, hb2] at this
    exact this
  have htake := hsorted2.sublist (List.take_sublist c _)
  exact htake.map _ (by intro a b h; exact h)

/-- Example site with one Delivery-Standard and one Collection-Urgent task. -/
def exSiteDC : Site :=
  ⟨"DC", ⟨0, 0⟩, [⟨"Delivery-Standard"⟩, ⟨"Collection-Urgent"⟩]⟩

/-- Example site with a single competitor_rental task. -/
def exSiteCR : Site :=
  ⟨"CR", ⟨0, 1⟩, [⟨"competitor_rental"⟩]⟩

/-- Example site with one neutral task, priority score 10. -/
def exSiteLow : Site :=
  ⟨"L", ⟨1, 0⟩, [⟨"swap"⟩]⟩

/-- Example site with two neutral tasks, priority score 20. -/
def exSiteHigh : Site :=
  ⟨"H", ⟨2, 0⟩, [⟨"swap"⟩, ⟨"inspection"⟩]⟩

/-- C2, counterexample to the claim as stated: a two-site consolidated input
below the capacity is returned reordered by descending priority score, not in
its original relative order; the low-score site L precedes the high-score
site H in the input, but the output is H before L. -/
theorem c2_cex :
    (selectWeeklyPriorityTasks [exSiteLow, exSiteHigh]
        WEEKLY_PRIORITY_CAPACITY).map Site.id = ["H", "L"]
    ∧ ([exSiteLow, exSiteHigh].map Site.id = ["L", "H"])
    ∧ (["H", "L"] : List String) ≠ ["L", "H"] := by
  refine ⟨by decide, by decide, by decide⟩

/-- C2, amended: the Priority Selector returns at most
WEEKLY_PRIORITY_CAPACITY = 43 sites for every input; when every input site
has at least one task and the input has at most 43 sites, the output is a
permutation of the whole input, ordered by descending priority score. -/
theorem c2_selector_cap_and_permutation (sites : List Site)
    (hall : ∀ s ∈ sites, s.transport_tasks ≠ [])
    (hlen : sites.length ≤ WEEKLY_PRIORITY_CAPACITY) :
    (∀ l : List Site,
      (selectWeeklyPriorityTasks l WEEKLY_PRIORITY_CAPACITY).length
        ≤ WEEKLY_PRIORITY_CAPACITY)
    ∧ (selectWeeklyPriorityTasks sites WEEKLY_PRIORITY_CAPACITY).Perm sites
    ∧ (selectWeeklyPriorityTasks sites WEEKLY_PRIORITY_CAPACITY).Pairwise
        (fun a b => priorityScore b ≤ priorityScore a) :=
  ⟨fun l => selectWeekly_length_le l _,
   selectWeekly_perm_of_le sites _ hall hlen,
   selectWeekly_sorted sites _⟩

/-- C2, witness for the amended theorem at a concrete two-site input. -/
theorem c2_w :
    (∀ l : List Site,
      (selectWeeklyPriorityTasks l WEEKLY_PRIORITY_CAPACITY).length
        ≤ WEEKLY_PRIORITY_CAPACITY)
    ∧ (selectWeeklyPriorityTasks [exSiteLow, exSiteHigh]
        WEEKLY_PRIORITY_CAPACITY).Perm [exSiteLow, exSiteHigh]
    ∧ (selectWeeklyPriorityTasks [exSiteLow, exSiteHigh]
        WEEKLY_PRIORITY_CAPACITY).Pairwise
        (fun a b => priorityScore b ≤ priorityScore a) :=
  c2_selector_cap_and_permutation [exSiteLow, exSiteHigh]
    (by intro s hs; rcases List.mem_cons.mp hs with rfl | hs
        · decide
        · rcases List.mem_cons.mp hs with rfl | hs
          · decide
          · cases hs)
    (by decide)

/-- C6, counterexample to the claim as stated: the site with tasks
Delivery-Standard and Collection-Urgent scores 10 times 2 plus 50 plus 30,
which is 100, not the 70 the claim asserts. -/
theorem c6_cex :
    priorityScore exSiteDC = 100 ∧ priorityScore exSiteDC ≠ 70 := by
  refine ⟨by decide, by decide⟩

/-- C6, amended: the priority score is 10 per task, plus 50 for a label
containing delivery case-insensitively, plus 30 for collection, plus 100 for
a label exactly equal to competitor_rental; the Delivery-Standard plus
Collection-Urgent site scores 100 (not 70), the competitor_rental site
scores 110 and still ranks above it in the selector output. -/
theorem c6_priority_formula :
    (∀ site : Site, site.transport_tasks ≠ [] →
      priorityScore site = 10 * site.transport_tasks.length
        + (if ∃ t ∈ site.transport_tasks, lowerIncludes t.type "delivery" = true
            then 50 else 0)
        + (if ∃ t ∈ site.transport_tasks, lowerIncludes t.type "collection" = true
            then 30 else 0)
        + (if ∃ t ∈ site.transport_tasks, t.type = "competitor_rental"
            then 100 else 0))
    ∧ priorityScore exSiteDC = 100
    ∧ priorityScore exSiteCR = 110
    ∧ (selectWeeklyPriorityTasks [exSiteDC, exSiteCR]
        WEEKLY_PRIORITY_CAPACITY).map Site.id = ["CR", "DC"] := by
  refine ⟨?_, by decide, by decide, by decide⟩
  intro site _
  simp only [priorityScore, Nat.mul_comm, List.any_eq_true, beq_iff_eq]

/-- C6, witness for the amended theorem, formula instantiated at the
competitor_rental site. -/
theorem c6_w :
    priorityScore exSiteCR = 10 * exSiteCR.transport_tasks.length
        + (if ∃ t ∈ exSiteCR.transport_tasks, lowerIncludes t.type "delivery" = true
            then 50 else 0)
        + (if ∃ t ∈ exSiteCR.transport_tasks, lowerIncludes t.type "collection" = true
            then 30 else 0)
        + (if ∃ t ∈ exSiteCR.transport_tasks, t.type = "competitor_rental"
            then 100 else 0) :=
  c6_priority_formula.1 exSiteCR (by decide)

/-- Two-argument arctangent, the JavaScript Math.atan2(y, x), modelled as the
argument of the complex number x + y i. -/
noncomputable def atan2 (y x : ℝ) : ℝ :=
  Complex.arg ⟨x, y⟩

/-- Haversine great-circle distance in km, source function
calculateDistance, Earth radius 6371 km. -/
noncomputable def calculateDistance (a b : Location) : ℝ :=
  let R : ℝ := 6371
  let dLat := (b.lat - a.lat) * Real.pi / 180
  let dLon := (b.lng - a.lng) * Real.pi / 180
  let a1 := Real.sin (dLat / 2) * Real.sin (dLat / 2) +
    Real.cos (a.lat * Real.pi / 180) * Real.cos (b.lat * Real.pi / 180) *
    Real.sin (dLon / 2) * Real.sin (dLon / 2)
  let c := 2 * atan2 (Real.sqrt a1) (Real.sqrt (1 - a1))
  R * c

/-- Total length of a polyline, source function calculateRouteDistance:
sum of consecutive-point distances, 0 for fewer than two points. -/
noncomputable def calculateRouteDistance : List Location → ℝ
  | a :: b :: rest => calculateDistance a b + calculateRouteDistance (b :: rest)
  | _ => 0

/-- Index of the first element of l minimizing f, the shape of the two
argmin forEach loops of the source (nearest remaining site in generateRoute,
nearest center in clusterSites): running minimum starts at Infinity, the
index is updated on strict improvement only. -/
noncomputable def argminFold {α : Type} (f : α → ℝ) (l : List α) : ℕ :=
  (l.foldl (fun acc x =>
    if (f x : WithTop ℝ) < acc.2.2 then (acc.2.1, acc.2.1 + 1, (f x : WithTop ℝ))
    else (acc.1, acc.2.1 + 1, acc.2.2)) ((0 : ℕ), (0 : ℕ), (⊤ : WithTop ℝ))).1

/-- Default site used only for the out-of-bounds branch of list indexing;
the source would crash there, and every indexing below is proved in bounds. -/
noncomputable def dummySite : Site :=
  ⟨"", ⟨0, 0⟩, []⟩

/-- Cluster centers of the source clusterSites: sites sorted by ascending
latitude (stable), sampled at rank floor(i / k times n) for i below k. -/
noncomputable def clusterCenters (sites : List Site) (k : ℕ) : List Location :=
  let sorted := stableSort (fun a b => decide (a.location.lat ≤ b.location.lat)) sites
  (List.range k).map (fun i => (sorted.getD (i * sites.length / k) dummySite).location)

/-- Index of the nearest center to a site, the inner forEach of clusterSites. -/
noncomputable def assignIndex (centers : List Location) (site : Site) : ℕ :=
  argminFold (fun center => calculateDistance center site.location) centers

/-- Source function clusterSites: passthrough to singleton groups when there
are at most k sites, otherwise a single-pass assignment of every site to the
nearest of the k seeded centers; empty buckets are dropped at the end. -/
noncomputable def clusterSites (sites : List Site) (k : ℕ) : List (List Site) :=
  if sites.length = 0 then [] else
  if sites.length ≤ k then sites.map (fun s => [s]) else
  let centers := clusterCenters sites k
  let buckets := sites.foldl (fun cls site =>
      cls.set (assignIndex centers site)
        (cls.getD (assignIndex centers site) [] ++ [site]))
    (List.replicate k ([] : List Site))
  buckets.filter (fun c => decide (0 < c.length))

theorem argminFold_aux {α : Type} (f : α → ℝ) (l : List α) :
    ∀ (bi i : ℕ) (m : WithTop ℝ),
    ((l.foldl (fun acc x =>
      if (f x : WithTop ℝ) < acc.2.2 then (acc.2.1, acc.2.1 + 1, (f x : WithTop ℝ))
      else (acc.1, acc.2.1 + 1, acc.2.2)) (bi, i, m)).1 = bi)
    ∨ (i ≤ (l.foldl (fun acc x =>
      if (f x : WithTop ℝ) < acc.2.2 then (acc.2.1, acc.2.1 + 1, (f x : WithTop ℝ))
      else (acc.1, acc.2.1 + 1, acc.2.2)) (bi, i, m)).1
      ∧ (l.foldl (fun acc x =>
      if (f x : WithTop ℝ) < acc.2.2 then (acc.2.1, acc.2.1 + 1, (f x : WithTop ℝ))
      else (acc.1, acc.2.1 + 1, acc.2.2)) (bi, i, m)).1 < i + l.length) := by
  induction l with
  | nil => exact fun bi i m => Or.inl rfl
  | cons x xs ih =>
    intro bi i m
    simp only [List.foldl_cons, List.length_cons]
    by_cases h : (f x : WithTop ℝ) < m
    · rw [if_pos h]
      rcases ih i (i + 1) ((f x : WithTop ℝ)) with h1 | ⟨h1, h2⟩
      · exact Or.inr ⟨le_of_eq h1.symm, by rw [h1]; omega⟩
      · exact Or.inr ⟨by omega, by omega⟩
    · rw [if_neg h]
      rcases ih bi (i + 1) m with h1 | ⟨h1, h2⟩
      · exact Or.inl h1
      · exact Or.inr ⟨by omega, by omega⟩

theorem argminFold_lt_length {α : Type} (f : α → ℝ) (l : List α) (hl : l ≠ []) :
    argminFold f l < l.length := by
  rcases l with _ | ⟨x, xs⟩
  · exact absurd rfl hl
  · unfold argminFold
    simp only [List.foldl_cons, List.length_cons]
    rw [if_pos (WithTop.coe_lt_top (f x))]
    rcases argminFold_aux f xs 0 (0 + 1) ((f x : WithTop ℝ)) with h1 | ⟨h1, h2⟩
    · rw [h1]; omega
    · omega

theorem flatten_set_push {α : Type} (cls : List (List α)) (i : ℕ) (s : α)
    (hi : i < cls.length) :
    ((cls.set i (cls.getD i [] ++ [s])).flatten).Perm (cls.flatten ++ [s]) := by
  rw [List.set_eq_take_append_cons_drop, if_pos hi]
  conv_rhs => rw [← List.take_append_drop i cls]
  rw [List.getD_eq_getElem cls [] hi]
  have hdrop : cls.drop i = cls[i] :: cls.drop (i + 1) := List.drop_eq_getElem_cons hi
  rw [hdrop]
  simp only [List.flatten_append, List.flatten_cons]
  rw [List.append_assoc, List.append_assoc]
  refine List.Perm.append_left _ ?_
  rw [List.append_assoc]
  exact List.Perm.append_left _ List.perm_append_comm

theorem foldl_buckets_perm {α : Type} (idx : α → ℕ)
    (l : List α) (cls : List (List α)) (hidx : ∀ s, idx s < cls.length) :
    (((l.foldl (fun cls s => cls.set (idx s) (cls.getD (idx s) [] ++ [s]))
        cls).flatten).Perm (cls.flatten ++ l))
    ∧ (l.foldl (fun cls s => cls.set (idx s) (cls.getD (idx s) [] ++ [s]))
        cls).length = cls.length := by
  induction l generalizing cls with
  | nil => exact ⟨by simp, rfl⟩
  | cons x xs ih =>
    simp only [List.foldl_cons]
    have hi := hidx x
    have hlen : (cls.set (idx x) (cls.getD (idx x) [] ++ [x])).length = cls.length :=
      List.length_set cls _ _
    have hidx2 : ∀ s, idx s < (cls.set (idx x) (cls.getD (idx x) [] ++ [x])).length := by
      intro s; rw [hlen]; exact hidx s
    rcases ih (cls.set (idx x) (cls.getD (idx x) [] ++ [x])) hidx2 with ⟨hperm, hleneq⟩
    refine ⟨hperm.trans ?_, by rw [hleneq, hlen]⟩
    refine ((flatten_set_push cls (idx x) x hi).append_right xs).trans ?_
    rw [List.append_assoc]
    simp

theorem clusterSites_shape (sites : List Site) (k : ℕ) (hk : 1 ≤ k) :
    (clusterSites sites k).length ≤ k
    ∧ (∀ c ∈ clusterSites sites k, c ≠ [])
    ∧ ((clusterSites sites k).flatten).Perm sites := by
  unfold clusterSites
  by_cases h0 : sites.length = 0
  · rw [if_pos h0]
    have : sites = [] := List.length_eq_zero.mp h0
    subst this
    refine ⟨Nat.zero_le k, ?_, ?_⟩
    · intro c hc
      cases hc
    · simp
  · rw [if_neg h0]
    by_cases h1 : sites.length ≤ k
    · rw [if_pos h1]
      refine ⟨by rw [List.length_map]; exact h1, ?_, ?_⟩
      · intro c hc
        rcases List.mem_map.mp hc with ⟨s, _, rfl⟩
        exact List.cons_ne_nil s []
      · have hfl : ∀ l : List Site, (l.map (fun s => [s])).flatten = l := by
          intro l
          induction l with
          | nil => rfl
          | cons s ss ihs => simp only [List.map_cons, List.flatten_cons, ihs,
              List.singleton_append]
        rw [hfl]
    · rw [if_neg h1]
      simp only []
      have hcen : clusterCenters sites k ≠ [] := by
        unfold clusterCenters
        intro h
        have := congrArg List.length h
        simp at this
        omega
      have hidx : ∀ s : Site,
          assignIndex (clusterCenters sites k) s < (List.replicate k ([] : List Site)).length := by
        intro s
        rw [List.length_replicate]
        have := argminFold_lt_length
          (fun center => calculateDistance center s.location) (clusterCenters sites k) hcen
        unfold assignIndex
        have hlen : (clusterCenters sites k).length = k := by
          unfold clusterCenters
          simp
        rw [hlen] at this
        exact this
      rcases foldl_buckets_perm (assignIndex (clusterCenters sites k)) sites
        (List.replicate k ([] : List Site)) hidx with ⟨hperm, hlen⟩
      constructor
      · refine (List.length_filter_le _ _).trans ?_
        rw [hlen, List.length_replicate]
      constructor
      · intro c hc
        have := (List.mem_filter.mp hc).2
        intro hcnil
        rw [hcnil] at this
        simp at this
      · have hflatfil : ∀ L : List (List Site),
            ((L.filter (fun c => decide (0 < c.length))).flatten) = L.flatten := by
          intro L
          induction L with
          | nil => rfl
          | cons c cs ihc =>
            by_cases hcnil : 0 < c.length
            · rw [List.filter_cons_of_pos (by simpa using hcnil)]
              simp [List.flatten_cons, ihc]
            · rw [List.filter_cons_of_neg (by simpa using hcnil)]
              have : c = [] := by
                rcases c with _ | _
                · rfl
                · simp at hcnil
              rw [this]
              simpa using ihc
        rw [hflatfil]
        refine hperm.trans ?_
        have : (List.replicate k ([] : List Site)).flatten = [] := by
          induction k with
          | zero => rfl
          | succ n ihn => simp [List.replicate_succ, ihn]
        rw [this]
        simp

/-- C4: for every site list and vehicle count k of at least 1, the clusterer
returns at most k groups, every returned group is non-empty, and the members
of the groups taken together are a permutation of the input sites (each site
in exactly one group), on both the passthrough and the seeded path. -/
theorem c4_cluster_partition (sites : List Site) (k : ℕ) (hk : 1 ≤ k) :
    (clusterSites sites k).length ≤ k
    ∧ (∀ c ∈ clusterSites sites k, c ≠ [])
    ∧ ((clusterSites sites k).flatten).Perm sites :=
  clusterSites_shape sites k hk

/-- C4, witness at a concrete input exercising the hypothesis k of at
least 1. -/
theorem c4_w :
    (clusterSites [exSiteLow, exSiteHigh] 1).length ≤ 1
    ∧ (∀ c ∈ clusterSites [exSiteLow, exSiteHigh] 1, c ≠ [])
    ∧ ((clusterSites [exSiteLow, exSiteHigh] 1).flatten).Perm
        [exSiteLow, exSiteHigh] :=
  c4_cluster_partition [exSiteLow, exSiteHigh] 1 (by decide)

/-- Supply of Math.random draws: an infinite stream of rationals, one per
call; a call to Math.random always yields a value in [0,1). -/
abbrev RNG : Type := ℕ → ℚ

/-- First unconsumed draw. -/
def RNG.head (r : RNG) : ℚ := r 0

/-- Stream after consuming one draw. -/
def RNG.tail (r : RNG) : RNG := fun n => r (n + 1)

/-- Every draw lies in [0,1), the contract of Math.random. -/
def RNG.valid (r : RNG) : Prop := ∀ n, 0 ≤ r n ∧ r n < 1

theorem RNG.valid.tail {r : RNG} (h : r.valid) : r.tail.valid :=
  fun n => h (n + 1)

/-- Body of the while loop of the source generateRoute, with the remaining
length as explicit fuel (in contract the fuel always equals the length of
the remaining list).  One draw decides the branch; the random branch
consumes a second draw for the index, the greedy branch picks the first
nearest remaining site. -/
noncomputable def genRouteLoop :
    ℕ → Location → List Site → ℚ → RNG → List Location × RNG
  | 0, _, _, _, rng => ([], rng)
  | _ + 1, _, [], _, rng => ([], rng)
  | fuel + 1, current, remaining@(_ :: _), randomFactor, rng =>
    let branchRandom := rng.head < randomFactor
    let selectedIndex :=
      if branchRandom then (⌊rng.tail.head * (remaining.length : ℚ)⌋).toNat
      else argminFold (fun site => calculateDistance current site.location) remaining
    let rng2 := if branchRandom then rng.tail.tail else rng.tail
    let chosen := remaining.getD selectedIndex dummySite
    let rest := genRouteLoop fuel chosen.location
      (remaining.eraseIdx selectedIndex) randomFactor rng2
    (chosen.location :: rest.1, rest.2)

/-- Source function generateRoute: depot, then the sites in visit order,
then the depot again; [depot, depot] for an empty site list. -/
noncomputable def generateRoute (depot : Location) (sites : List Site)
    (randomFactor : ℚ) (rng : RNG) : List Location × RNG :=
  if sites.length = 0 then ([depot, depot], rng)
  else
    let r := genRouteLoop sites.length depot sites randomFactor rng
    (depot :: r.1 ++ [depot], r.2)

/-- Route construction with the greedy branch removed: every step draws the
branch test and then picks a uniformly random remaining site.  Used to state
that a randomness factor of at least 1 makes generateRoute ignore distances
entirely. -/
noncomputable def randomOnlyLoop : ℕ → List Site → RNG → List Location × RNG
  | 0, _, rng => ([], rng)
  | _ + 1, [], rng => ([], rng)
  | fuel + 1, remaining@(_ :: _), rng =>
    let selectedIndex := (⌊rng.tail.head * (remaining.length : ℚ)⌋).toNat
    let chosen := remaining.getD selectedIndex dummySite
    let rest := randomOnlyLoop fuel (remaining.eraseIdx selectedIndex) rng.tail.tail
    (chosen.location :: rest.1, rest.2)

/-- Purely random route constructor, the distance-free counterpart of
generateRoute. -/
noncomputable def randomOnlyRoute (depot : Location) (sites : List Site)
    (rng : RNG) : List Location × RNG :=
  if sites.length = 0 then ([depot, depot], rng)
  else
    let r := randomOnlyLoop sites.length sites rng
    (depot :: r.1 ++ [depot], r.2)

/-- Generation-level randomness tier of the driver loop: 0.4 before
generation index 4, 0.2 before 8, 0.05 afterwards. -/
def genRandomFactor (gen : ℕ) : ℚ :=
  if gen < 4 then 0.4 else if gen < 8 then 0.2 else 0.05

/-- Per-member randomness factor of the driver loop. -/
def individualRandomFactor (gen individual : ℕ) : ℚ :=
  genRandomFactor gen * (1 + individual * 0.3)

theorem perm_getD_cons_eraseIdx {α : Type} (l : List α) (i : ℕ) (d : α)
    (h : i < l.length) : l.Perm (l.getD i d :: l.eraseIdx i) := by
  induction l generalizing i with
  | nil => simp at h
  | cons x xs ih =>
    rcases i with _ | j
    · simp [List.eraseIdx]
    · have hj : j < xs.length := by simpa using h
      have h1 := (ih j hj).cons x
      have h2 : (x :: xs.getD j d :: xs.eraseIdx j).Perm
          (xs.getD j d :: x :: xs.eraseIdx j) := List.Perm.swap _ _ _
      exact h1.trans h2

theorem floor_toNat_lt_of_lt_one {q : ℚ} (n : ℕ) (h1 : q < 1)
    (hn : 0 < n) : (⌊q * (n : ℚ)⌋).toNat < n := by
  have hql : q * (n : ℚ) < ((n : ℤ) : ℚ) := by
    push_cast
    calc q * (n : ℚ) < 1 * (n : ℚ) := by
          apply mul_lt_mul_of_pos_right h1
          exact_mod_cast hn
      _ = (n : ℚ) := one_mul _
  have hfl : ⌊q * (n : ℚ)⌋ < (n : ℤ) := Int.floor_lt.mpr hql
  omega

theorem genRouteLoop_perm (fuel : ℕ) :
    ∀ (current : Location) (remaining : List Site) (rf : ℚ) (rng : RNG),
    rng.valid → remaining.length ≤ fuel →
    ((genRouteLoop fuel current remaining rf rng).1).Perm
      (remaining.map Site.location) := by
  induction fuel with
  | zero =>
    intro current remaining rf rng _ hfuel
    have : remaining = [] := List.length_eq_zero.mp (Nat.le_zero.mp hfuel)
    subst this
    simp [genRouteLoop]
  | succ fuel ih =>
    intro current remaining rf rng hrng hfuel
    rcases remaining with _ | ⟨s, ss⟩
    · simp [genRouteLoop]
    · rw [genRouteLoop]
      set remaining := s :: ss with hrem
      set branchRandom := rng.head < rf with hbr
      set selectedIndex :=
        if branchRandom then (⌊rng.tail.head * (remaining.length : ℚ)⌋).toNat
        else argminFold (fun site => calculateDistance current site.location) remaining
        with hsel
      set rng2 := if branchRandom then rng.tail.tail else rng.tail with hrng2
      have hlen : 0 < remaining.length := by rw [hrem]; simp
      have hidx : selectedIndex < remaining.length := by
        rw [hsel]
        by_cases hb : branchRandom
        · rw [if_pos hb]
          exact floor_toNat_lt_of_lt_one remaining.length
            ((hrng 1).2) hlen
        · rw [if_neg hb]
          exact argminFold_lt_length _ remaining (by rw [hrem]; simp)
      have hval2 : rng2.valid := by
        rw [hrng2]
        by_cases hb : branchRandom
        · rw [if_pos hb]; exact hrng.tail.tail
        · rw [if_neg hb]; exact hrng.tail
      have hfuel2 : (remaining.eraseIdx selectedIndex).length ≤ fuel := by
        rw [List.length_eraseIdx, if_pos hidx]
        have := hfuel
        rw [hrem] at *
        simp only [List.length_cons] at *
        omega
      have hrec := ih (remaining.getD selectedIndex dummySite).location
        (remaining.eraseIdx selectedIndex) rf rng2 hval2 hfuel2
      have hperm := perm_getD_cons_eraseIdx remaining selectedIndex dummySite hidx
      have hmap := hperm.map Site.location
      simp only [List.map_cons] at hmap
      exact (hrec.cons _).trans hmap.symm

theorem generateRoute_empty (depot : Location) (rf : ℚ) (rng : RNG) :
    (generateRoute depot [] rf rng).1 = [depot, depot] := by
  simp [generateRoute]

theorem generateRoute_shape (depot : Location) (sites : List Site) (rf : ℚ)
    (rng : RNG) (hrng : rng.valid) :
    ((generateRoute depot sites rf rng).1).head? = some depot
    ∧ ((generateRoute depot sites rf rng).1).getLast? = some depot
    ∧ ((((generateRoute depot sites rf rng).1).drop 1).dropLast).Perm
        (sites.map Site.location) := by
  unfold generateRoute
  by_cases h0 : sites.length = 0
  · rw [if_pos h0]
    have : sites = [] := List.length_eq_zero.mp h0
    subst this
    refine ⟨rfl, rfl, ?_⟩
    simp
  · rw [if_neg h0]
    refine ⟨rfl, ?_, ?_⟩
    · show (depot :: ((genRouteLoop sites.length depot sites rf rng).1 ++ [depot])).getLast?
        = some depot
      rw [← List.cons_append, List.getLast?_append]
      rfl
    · show (((depot :: ((genRouteLoop sites.length depot sites rf rng).1 ++ [depot])).drop 1).dropLast).Perm
        (sites.map Site.location)
      rw [List.drop_one, List.tail_cons, List.dropLast_concat]
      exact genRouteLoop_perm sites.length depot sites rf rng hrng (le_refl _)

/-- C5: for every depot, site list, randomness factor and valid draw stream,
the constructed route starts and ends at the depot and its interior is a
permutation of the input site coordinates; the empty site list yields
exactly [depot, depot]. -/
theorem c5_route_endpoints_and_interior (depot : Location) (sites : List Site)
    (rf : ℚ) (rng : RNG) (hrng : rng.valid) :
    (sites = [] → (generateRoute depot sites rf rng).1 = [depot, depot])
    ∧ ((generateRoute depot sites rf rng).1).head? = some depot
    ∧ ((generateRoute depot sites rf rng).1).getLast? = some depot
    ∧ ((((generateRoute depot sites rf rng).1).drop 1).dropLast).Perm
        (sites.map Site.location) := by
  rcases generateRoute_shape depot sites rf rng hrng with ⟨h1, h2, h3⟩
  exact ⟨fun hs => by rw [hs]; exact generateRoute_empty depot rf rng, h1, h2, h3⟩

/-- C5, witness at a concrete one-site input with the all-zero draw stream. -/
theorem c5_w :
    ([exSiteLow] = [] →
      (generateRoute ⟨0, 0⟩ [exSiteLow] (1/2) (fun _ => 0)).1 = [⟨0, 0⟩, ⟨0, 0⟩])
    ∧ ((generateRoute ⟨0, 0⟩ [exSiteLow] (1/2) (fun _ => 0)).1).head? = some ⟨0, 0⟩
    ∧ ((generateRoute ⟨0, 0⟩ [exSiteLow] (1/2) (fun _ => 0)).1).getLast? = some ⟨0, 0⟩
    ∧ ((((generateRoute ⟨0, 0⟩ [exSiteLow] (1/2) (fun _ => 0)).1).drop 1).dropLast).Perm
        ([exSiteLow].map Site.location) :=
  c5_route_endpoints_and_interior ⟨0, 0⟩ [exSiteLow] (1/2) (fun _ => 0)
    (fun n => by norm_num)

theorem genRouteLoop_eq_randomOnly (fuel : ℕ) :
    ∀ (current : Location) (remaining : List Site) (rf : ℚ) (rng : RNG),
    rng.valid → 1 ≤ rf →
    genRouteLoop fuel current remaining rf rng = randomOnlyLoop fuel remaining rng := by
  induction fuel with
  | zero => intro current remaining rf rng _ _; rfl
  | succ fuel ih =>
    intro current remaining rf rng hrng hrf
    rcases remaining with _ | ⟨s, ss⟩
    · rfl
    · rw [genRouteLoop, randomOnlyLoop]
      have hb : rng.head < rf := lt_of_lt_of_le (hrng 0).2 hrf
      simp only [if_pos hb]
      rw [ih _ _ rf _ hrng.tail.tail hrf]

/-- C10: when the randomness factor is at least 1 the greedy branch of the
Route Constructor is dead code: the result coincides with the purely random
selector for every valid draw stream; and the driver does make such calls,
since for generation indices below 4 the per-member factor reaches 1 for
member indices of 5 and above. -/
theorem c10_randomness_saturation :
    (∀ (depot : Location) (sites : List Site) (rf : ℚ) (rng : RNG),
      rng.valid → 1 ≤ rf →
      generateRoute depot sites rf rng = randomOnlyRoute depot sites rng)
    ∧ (∀ gen i : ℕ, gen < 4 → 5 ≤ i → 1 ≤ individualRandomFactor gen i) := by
  constructor
  · intro depot sites rf rng hrng hrf
    unfold generateRoute randomOnlyRoute
    by_cases h0 : sites.length = 0
    · rw [if_pos h0, if_pos h0]
    · rw [if_neg h0, if_neg h0,
        genRouteLoop_eq_randomOnly sites.length depot sites rf rng hrng hrf]
  · intro gen i hgen hi
    unfold individualRandomFactor genRandomFactor
    rw [if_pos hgen]
    have hic : (5 : ℚ) ≤ (i : ℚ) := by exact_mod_cast hi
    nlinarith [hic]

/-- C10, witness: concrete call with factor 1 and the all-zero stream, and
the concrete member factor at generation 0, member 5. -/
theorem c10_w :
    generateRoute ⟨0, 0⟩ [exSiteLow, exSiteHigh] 1 (fun _ => 0)
      = randomOnlyRoute ⟨0, 0⟩ [exSiteLow, exSiteHigh] (fun _ => 0)
    ∧ 1 ≤ individualRandomFactor 0 5 :=
  ⟨c10_randomness_saturation.1 ⟨0, 0⟩ [exSiteLow, exSiteHigh] 1 (fun _ => 0)
      (fun n => by norm_num) (le_refl 1),
   c10_randomness_saturation.2 0 5 (by norm_num) (by norm_num)⟩

/-- Candidate 2-opt move of the source improve2Opt: slice before i, the
reversed segment from i to j inclusive, then the remainder from j+1. -/
noncomputable def swapSeg (r : List Location) (i j : ℕ) : List Location :=
  r.take i ++ ((r.drop i).take (j + 1 - i)).reverse ++ r.drop (j + 1)

/-- One full scan of the nested for loops of improve2Opt: the first pair
(i, j) in lexicographic order whose reversal shortens the route by more than
the 0.01 km epsilon, with i from 1 to length - 3 and j from i + 1 to
length - 2; both loops break at the first improvement. -/
noncomputable def findImprove (best : List Location) : Option (List Location) :=
  (List.range' 1 (best.length - 3)).findSome? (fun i =>
    (List.range' (i + 1) (best.length - 2 - i)).findSome? (fun j =>
      if calculateRouteDistance (swapSeg best i j)
          < calculateRouteDistance best - 0.01
      then some (swapSeg best i j) else none))

/-- While loop of improve2Opt: each iteration applies at most the first
improving move and rescans; the loop stops when a scan finds nothing or the
iteration budget runs out. -/
noncomputable def twoOptLoop : List Location → ℕ → List Location
  | route, 0 => route
  | route, fuel + 1 =>
    match findImprove route with
    | some r2 => twoOptLoop r2 fuel
    | none => route

/-- Source function improve2Opt: routes of length at most 3 are returned
unchanged; otherwise the 2-opt loop runs and afterwards the last element is
overwritten with the first. -/
noncomputable def improve2Opt (route : List Location) (maxIterations : ℕ) :
    List Location :=
  if route.length ≤ 3 then route else
  match twoOptLoop route maxIterations with
  | [] => []
  | h :: t => (h :: t).set ((h :: t).length - 1) h

theorem swapSeg_split (r : List Location) (i j : ℕ) (hij : i ≤ j + 1) :
    r = r.take i ++ (((r.drop i).take (j + 1 - i)) ++ r.drop (j + 1)) := by
  conv_lhs => rw [← List.take_append_drop i r]
  congr 1
  conv_lhs => rw [← List.take_append_drop (j + 1 - i) (r.drop i)]
  congr 1
  rw [List.drop_drop]
  congr 1
  omega

theorem swapSeg_perm (r : List Location) (i j : ℕ) (hij : i ≤ j + 1) :
    (swapSeg r i j).Perm r := by
  unfold swapSeg
  conv_rhs => rw [swapSeg_split r i j hij]
  rw [List.append_assoc]
  exact List.Perm.append_left _
    (List.Perm.append_right _ (List.reverse_perm _))

theorem swapSeg_head? (r : List Location) (i j : ℕ) (hi : 1 ≤ i) (hr : r ≠ []) :
    (swapSeg r i j).head? = r.head? := by
  unfold swapSeg
  rw [List.append_assoc, List.head?_append]
  rcases r with _ | ⟨a, as⟩
  · exact absurd rfl hr
  · rcases i with _ | i0
    · omega
    · simp [List.take_cons]

theorem getLast?_drop_of_ne_nil (r : List Location) (k : ℕ) (h : r.drop k ≠ []) :
    (r.drop k).getLast? = r.getLast? := by
  conv_rhs => rw [← List.take_append_drop k r]
  rw [List.getLast?_append]
  rcases hx : (r.drop k).getLast? with _ | x
  · rw [List.getLast?_eq_none_iff] at hx
    exact absurd hx h
  · rfl

theorem swapSeg_getLast? (r : List Location) (i j : ℕ) (hj : j + 1 < r.length) :
    (swapSeg r i j).getLast? = r.getLast? := by
  unfold swapSeg
  have hne : r.drop (j + 1) ≠ [] := by
    intro h
    have := congrArg List.length h
    rw [List.length_drop] at this
    simp at this
    omega
  rw [List.append_assoc, List.getLast?_append, List.getLast?_append]
  rw [getLast?_drop_of_ne_nil r (j + 1) hne]
  rcases hx : r.getLast? with _ | x
  · rw [List.getLast?_eq_none_iff] at hx
    subst hx
    simp at hj
  · rfl

theorem findImprove_some (best r2 : List Location)
    (h : findImprove best = some r2) :
    calculateRouteDistance r2 < calculateRouteDistance best - 0.01
    ∧ r2.Perm best
    ∧ r2.head? = best.head?
    ∧ r2.getLast? = best.getLast? := by
  rcases List.exists_of_findSome?_eq_some h with ⟨i, hi, hinner⟩
  rcases List.exists_of_findSome?_eq_some hinner with ⟨j, hjmem, hif⟩
  rw [List.mem_range'_1] at hi hjmem
  have hL : 4 ≤ best.length := by omega
  have hcond : calculateRouteDistance (swapSeg best i j)
      < calculateRouteDistance best - 0.01 := by
    by_cases hc : calculateRouteDistance (swapSeg best i j)
        < calculateRouteDistance best - 0.01
    · exact hc
    · rw [if_neg hc] at hif
      cases hif
  have hr2 : r2 = swapSeg best i j := by
    rw [if_pos hcond] at hif
    exact (Option.some_inj.mp hif).symm
  subst hr2
  have hbne : best ≠ [] := by
    intro hb
    rw [hb] at hL
    simp at hL
  refine ⟨hcond, swapSeg_perm best i j (by omega),
    swapSeg_head? best i j (by omega) hbne,
    swapSeg_getLast? best i j (by omega)⟩

theorem twoOptLoop_props (fuel : ℕ) : ∀ (route : List Location),
    calculateRouteDistance (twoOptLoop route fuel)
      ≤ calculateRouteDistance route
    ∧ (twoOptLoop route fuel).Perm route
    ∧ (twoOptLoop route fuel).head? = route.head?
    ∧ (twoOptLoop route fuel).getLast? = route.getLast? := by
  induction fuel with
  | zero =>
    intro route
    exact ⟨le_refl _, List.Perm.refl _, rfl, rfl⟩
  | succ fuel ih =>
    intro route
    rw [twoOptLoop]
    rcases hfi : findImprove route with _ | r2
    · exact ⟨le_refl _, List.Perm.refl _, rfl, rfl⟩
    · rcases findImprove_some route r2 hfi with ⟨hd, hp, hh, hl⟩
      rcases ih r2 with ⟨ihd, ihp, ihh, ihl⟩
      exact ⟨by linarith, ihp.trans hp, ihh.trans hh, ihl.trans hl⟩

theorem dropLast_set_last {α : Type} (x : α) :
    ∀ (l : List α), l ≠ [] → (l.set (l.length - 1) x).dropLast = l.dropLast
  | [], h => absurd rfl h
  | [a], _ => rfl
  | a :: b :: t, _ => by
    have hrec := dropLast_set_last x (b :: t) (List.cons_ne_nil b t)
    show ((a :: b :: t).set ((b :: t).length) x).dropLast = (a :: b :: t).dropLast
    have hlen : (b :: t).length = ((b :: t).length - 1) + 1 := by simp
    rw [hlen]
    show (a :: (b :: t).set ((b :: t).length - 1) x).dropLast
      = (a :: b :: t).dropLast
    have hne2 : (b :: t).set ((b :: t).length - 1) x ≠ [] := by
      intro hx
      have := congrArg List.length hx
      simp at this
    rw [List.dropLast_cons_of_ne_nil hne2, hrec,
      List.dropLast_cons_of_ne_nil (List.cons_ne_nil b t)]

theorem set_last_eq_self {α : Type} (x : α) :
    ∀ (l : List α), l.getLast? = some x → l.set (l.length - 1) x = l
  | [], h => by cases h
  | [a], h => by
    have : a = x := by
      rw [List.getLast?_singleton] at h
      exact Option.some_inj.mp h
    rw [this]
    rfl
  | a :: b :: t, h => by
    have h2 : (b :: t).getLast? = some x := by
      rwa [List.getLast?_cons_cons] at h
    have hrec := set_last_eq_self x (b :: t) h2
    show (a :: b :: t).set ((b :: t).length) x = a :: b :: t
    have hlen : (b :: t).length = ((b :: t).length - 1) + 1 := by simp
    rw [hlen]
    show a :: (b :: t).set ((b :: t).length - 1) x = a :: b :: t
    rw [hrec]

theorem getLast?_set_last {α : Type} (x : α) :
    ∀ (l : List α), l ≠ [] → (l.set (l.length - 1) x).getLast? = some x
  | [], h => absurd rfl h
  | [a], _ => rfl
  | a :: b :: t, _ => by
    show ((a :: b :: t).set ((b :: t).length) x).getLast? = some x
    have hlen : (b :: t).length = ((b :: t).length - 1) + 1 := by simp
    rw [hlen]
    show (a :: (b :: t).set ((b :: t).length - 1) x).getLast? = some x
    have hrec := getLast?_set_last x (b :: t) (List.cons_ne_nil b t)
    have hne2 : (b :: t).set ((b :: t).length - 1) x ≠ [] := by
      intro hx
      have := congrArg List.length hx
      simp at this
    rw [List.getLast?_cons, hrec]
    simp

theorem interior_set_last {α : Type} (x : α) (l : List α) (h : l ≠ []) :
    ((l.set (l.length - 1) x).drop 1).dropLast = (l.drop 1).dropLast := by
  rcases l with _ | ⟨a, rest⟩
  · exact absurd rfl h
  · rcases rest with _ | ⟨b, t⟩
    · rfl
    · show (((a :: b :: t).set ((b :: t).length) x).drop 1).dropLast
        = ((a :: b :: t).drop 1).dropLast
      have hlen : (b :: t).length = ((b :: t).length - 1) + 1 := by simp
      rw [hlen]
      show (((b :: t).set ((b :: t).length - 1) x)).dropLast = (b :: t).dropLast
      exact dropLast_set_last x (b :: t) (List.cons_ne_nil b t)

theorem two_le_decomp {α : Type} (l : List α) (h : 2 ≤ l.length) :
    ∃ a m z, l = a :: (m ++ [z]) := by
  rcases l with _ | ⟨a, rest⟩
  · simp at h
  · have hne : rest ≠ [] := by
      intro hr
      rw [hr] at h
      simp at h
    exact ⟨a, rest.dropLast, rest.getLast hne,
      by rw [List.dropLast_append_getLast hne]⟩

theorem getLast?_cons_ne_nil {α : Type} (a : α) (L : List α) (h : L ≠ []) :
    (a :: L).getLast? = L.getLast? := by
  show ([a] ++ L).getLast? = L.getLast?
  rw [List.getLast?_append]
  rcases hx : L.getLast? with _ | x
  · rw [List.getLast?_eq_none_iff] at hx
    exact absurd hx h
  · rfl

theorem interior_perm_of_perm_ends {α : Type} (l₁ l₂ : List α)
    (hp : l₁.Perm l₂) (h2 : 2 ≤ l₁.length)
    (hh : l₁.head? = l₂.head?) (hl : l₁.getLast? = l₂.getLast?) :
    ((l₁.drop 1).dropLast).Perm ((l₂.drop 1).dropLast) := by
  have h2b : 2 ≤ l₂.length := by rw [← hp.length_eq]; exact h2
  rcases two_le_decomp l₁ h2 with ⟨a1, m1, z1, he1⟩
  rcases two_le_decomp l₂ h2b with ⟨a2, m2, z2, he2⟩
  subst he1
  subst he2
  have hhead : a1 = a2 := by
    simp only [List.head?_cons] at hh
    exact Option.some_inj.mp hh
  have hlast : z1 = z2 := by
    rw [getLast?_cons_ne_nil a1 (m1 ++ [z1]) (by simp),
      getLast?_cons_ne_nil a2 (m2 ++ [z2]) (by simp),
      List.getLast?_append, List.getLast?_append] at hl
    simpa using hl
  subst hhead
  subst hlast
  have hp2 : (m1 ++ [z1]).Perm (m2 ++ [z1]) := hp.cons_inv
  have hm : m1.Perm m2 := (List.perm_append_right_iff [z1]).mp hp2
  simpa [List.dropLast_concat] using hm

theorem improve2Opt_small (route : List Location) (n : ℕ)
    (h : route.length ≤ 3) : improve2Opt route n = route := by
  rw [improve2Opt, if_pos h]

theorem improve2Opt_props (route : List Location) (n : ℕ)
    (h4 : 3 < route.length) :
    (improve2Opt route n).head? = route.head?
    ∧ (improve2Opt route n).getLast? = route.head?
    ∧ (((improve2Opt route n).drop 1).dropLast).Perm ((route.drop 1).dropLast)
    ∧ (route.head? = route.getLast? →
        calculateRouteDistance (improve2Opt route n)
          ≤ calculateRouteDistance route) := by
  rcases twoOptLoop_props n route with ⟨hd, hp, hh, hl⟩
  have hblen : (twoOptLoop route n).length = route.length := hp.length_eq
  rcases hb : twoOptLoop route n with _ | ⟨x, t⟩
  · rw [hb] at hblen
    simp at hblen
    omega
  · rw [hb] at hd hp hh hl hblen
    have himp : improve2Opt route n = (x :: t).set ((x :: t).length - 1) x := by
      rw [improve2Opt, if_neg (by omega), hb]
    have htlen : 3 ≤ t.length := by
      simp only [List.length_cons] at hblen
      omega
    have hsetcons : (x :: t).set ((x :: t).length - 1) x
        = x :: t.set (t.length - 1) x := by
      simp only [List.length_cons, Nat.add_sub_cancel]
      have : t.length = (t.length - 1) + 1 := by omega
      rw [this]
      rfl
    have hhead : (improve2Opt route n).head? = route.head? := by
      rw [himp, hsetcons]
      rw [← hh]
      rfl
    refine ⟨hhead, ?_, ?_, ?_⟩
    · rw [himp, getLast?_set_last x (x :: t) (List.cons_ne_nil x t), ← hh]
      rfl
    · rw [himp, interior_set_last x (x :: t) (List.cons_ne_nil x t)]
      have h2 : 2 ≤ (x :: t).length := by simp only [List.length_cons]; omega
      exact interior_perm_of_perm_ends (x :: t) route hp h2 hh hl
    · intro hclosed
      have hxlast : (x :: t).getLast? = some x := by
        rw [hl, ← hclosed, ← hh]
        rfl
      rw [himp, set_last_eq_self x (x :: t) hxlast]
      exact hd

/-- C9: for every route of length above 3, the refined route starts at the
first point of the input and also ends there, because the last element is
overwritten with the first after the scan loop, even when the input ended
elsewhere. -/
theorem c9_endpoints_overwritten (route : List Location) (n : ℕ)
    (h : 3 < route.length) :
    (improve2Opt route n).head? = route.head?
    ∧ (improve2Opt route n).getLast? = route.head? :=
  ⟨(improve2Opt_props route n h).1, (improve2Opt_props route n h).2.1⟩

/-- C9, witness at a concrete length-4 route whose endpoints differ. -/
theorem c9_w :
    (improve2Opt [⟨0, 0⟩, ⟨1, 0⟩, ⟨2, 0⟩, ⟨3, 0⟩] 50).head?
      = ([⟨0, 0⟩, ⟨1, 0⟩, ⟨2, 0⟩, ⟨3, 0⟩] : List Location).head?
    ∧ (improve2Opt [⟨0, 0⟩, ⟨1, 0⟩, ⟨2, 0⟩, ⟨3, 0⟩] 50).getLast?
      = ([⟨0, 0⟩, ⟨1, 0⟩, ⟨2, 0⟩, ⟨3, 0⟩] : List Location).head? :=
  c9_endpoints_overwritten [⟨0, 0⟩, ⟨1, 0⟩, ⟨2, 0⟩, ⟨3, 0⟩] 50 (by norm_num)

/-- C3, amended: routes of length at most 3 are unchanged; for longer routes
the interior multiset is always preserved, and the total length is
non-increasing for closed routes (first point equal to last point); for open
routes the final endpoint overwrite can lengthen the route, see the
counterexample. -/
theorem c3_twoopt_nonregression (route : List Location) (n : ℕ) :
    (route.length ≤ 3 → improve2Opt route n = route)
    ∧ (3 < route.length →
        (((improve2Opt route n).drop 1).dropLast).Perm ((route.drop 1).dropLast))
    ∧ (3 < route.length → route.head? = route.getLast? →
        calculateRouteDistance (improve2Opt route n)
          ≤ calculateRouteDistance route) :=
  ⟨fun h => improve2Opt_small route n h,
   fun h => (improve2Opt_props route n h).2.2.1,
   fun h hc => (improve2Opt_props route n h).2.2.2 hc⟩

/-- C3, witness: the short-route passthrough discharged at a length-2 route,
and the interior-permutation and non-regression conjuncts discharged at the
concrete closed length-4 route (0,0), (1,0), (2,0), (0,0). -/
theorem c3_w :
    improve2Opt [⟨0, 0⟩, ⟨1, 0⟩] 50 = [⟨0, 0⟩, ⟨1, 0⟩]
    ∧ (((improve2Opt [⟨0, 0⟩, ⟨1, 0⟩, ⟨2, 0⟩, ⟨0, 0⟩] 50).drop 1).dropLast).Perm
        ((([⟨0, 0⟩, ⟨1, 0⟩, ⟨2, 0⟩, ⟨0, 0⟩] : List Location).drop 1).dropLast)
    ∧ calculateRouteDistance (improve2Opt [⟨0, 0⟩, ⟨1, 0⟩, ⟨2, 0⟩, ⟨0, 0⟩] 50)
        ≤ calculateRouteDistance
          ([⟨0, 0⟩, ⟨1, 0⟩, ⟨2, 0⟩, ⟨0, 0⟩] : List Location) :=
  ⟨(c3_twoopt_nonregression [⟨0, 0⟩, ⟨1, 0⟩] 50).1 (by decide),
   (c3_twoopt_nonregression [⟨0, 0⟩, ⟨1, 0⟩, ⟨2, 0⟩, ⟨0, 0⟩] 50).2.1 (by decide),
   (c3_twoopt_nonregression [⟨0, 0⟩, ⟨1, 0⟩, ⟨2, 0⟩, ⟨0, 0⟩] 50).2.2 (by decide) rfl⟩

theorem atan2_sin_cos (x : ℝ) (hx : x ∈ Set.Ioc (-Real.pi) Real.pi) :
    atan2 (Real.sin x) (Real.cos x) = x := by
  unfold atan2
  have he : (⟨Real.cos x, Real.sin x⟩ : ℂ)
      = Complex.cos x + Complex.sin x * Complex.I := by
    apply Complex.ext
    · simp [Complex.cos_ofReal_re]
    · simp [Complex.sin_ofReal_re]
  rw [he]
  exact Complex.arg_cos_add_sin_mul_I hx

theorem hav_core (d : ℝ) (h0 : 0 ≤ d) (hp : d ≤ Real.pi / 2) (C : ℝ) :
    2 * atan2 (Real.sqrt (Real.sin d * Real.sin d + C * Real.sin 0 * Real.sin 0))
      (Real.sqrt (1 - (Real.sin d * Real.sin d + C * Real.sin 0 * Real.sin 0)))
    = 2 * d := by
  have hpi := Real.pi_pos
  have hz : Real.sin (0 : ℝ) = 0 := Real.sin_zero
  rw [hz, mul_zero, add_zero]
  have hsnn : 0 ≤ Real.sin d :=
    Real.sin_nonneg_of_nonneg_of_le_pi h0 (by linarith)
  have hcnn : 0 ≤ Real.cos d :=
    Real.cos_nonneg_of_mem_Icc ⟨by linarith, hp⟩
  have h1 : Real.sqrt (Real.sin d * Real.sin d) = Real.sin d :=
    Real.sqrt_mul_self hsnn
  have h2 : 1 - Real.sin d * Real.sin d = Real.cos d * Real.cos d := by
    nlinarith [Real.sin_sq_add_cos_sq d]
  rw [h1, h2, Real.sqrt_mul_self hcnn]
  rw [atan2_sin_cos d ⟨by linarith, by linarith⟩]

/-- On a meridian (equal longitudes, latitude difference between 0 and 180
degrees) the haversine distance is exactly the Earth radius times the
latitude difference in radians. -/
theorem calcDist_meridian (p q : Location) (hlng : p.lng = q.lng)
    (h0 : 0 ≤ q.lat - p.lat) (h180 : q.lat - p.lat ≤ 180) :
    calculateDistance p q = 6371 * ((q.lat - p.lat) * Real.pi / 180) := by
  have hpi := Real.pi_pos
  simp only [calculateDistance]
  rw [← hlng, sub_self, zero_mul, zero_div, zero_div]
  have hd0 : 0 ≤ (q.lat - p.lat) * Real.pi / 180 / 2 := by positivity
  have hdp : (q.lat - p.lat) * Real.pi / 180 / 2 ≤ Real.pi / 2 := by
    have : (q.lat - p.lat) * Real.pi ≤ 180 * Real.pi := by nlinarith
    nlinarith
  rw [hav_core ((q.lat - p.lat) * Real.pi / 180 / 2) hd0 hdp
    (Real.cos (p.lat * Real.pi / 180) * Real.cos (q.lat * Real.pi / 180))]
  ring

theorem calcDist_symm (a b : Location) :
    calculateDistance a b = calculateDistance b a := by
  simp only [calculateDistance]
  have h1 : (a.lat - b.lat) * Real.pi / 180 / 2
      = -((b.lat - a.lat) * Real.pi / 180 / 2) := by ring
  have h2 : (a.lng - b.lng) * Real.pi / 180 / 2
      = -((b.lng - a.lng) * Real.pi / 180 / 2) := by ring
  rw [h1, h2, Real.sin_neg, Real.sin_neg]
  ring_nf

theorem twoOptLoop_of_none (route : List Location)
    (h : findImprove route = none) : ∀ fuel, twoOptLoop route fuel = route := by
  intro fuel
  cases fuel with
  | zero => rfl
  | succ n => rw [twoOptLoop, h]

/-- C3, counterexample to the claim as stated: on the open collinear route
(0,0), (1,0), (2,0), (3,0) no 2-opt move improves, the final overwrite turns
the route into (0,0), (1,0), (2,0), (0,0), and the total length grows from 3
to 4 meridian degree units, refuting the non-regression claim for routes
whose endpoints differ. -/
theorem c3_cex :
    ¬ (calculateRouteDistance
        (improve2Opt [⟨0, 0⟩, ⟨1, 0⟩, ⟨2, 0⟩, ⟨3, 0⟩] 50)
      ≤ calculateRouteDistance
        ([⟨0, 0⟩, ⟨1, 0⟩, ⟨2, 0⟩, ⟨3, 0⟩] : List Location)) := by
  have hpi := Real.pi_pos
  have h01 : calculateDistance ⟨0, 0⟩ ⟨1, 0⟩ = 6371 * (Real.pi / 180) := by
    rw [calcDist_meridian ⟨0, 0⟩ ⟨1, 0⟩ rfl (by norm_num) (by norm_num)]
    norm_num
  have h12 : calculateDistance ⟨1, 0⟩ ⟨2, 0⟩ = 6371 * (Real.pi / 180) := by
    rw [calcDist_meridian ⟨1, 0⟩ ⟨2, 0⟩ rfl (by norm_num) (by norm_num)]
    ring_nf
  have h23 : calculateDistance ⟨2, 0⟩ ⟨3, 0⟩ = 6371 * (Real.pi / 180) := by
    rw [calcDist_meridian ⟨2, 0⟩ ⟨3, 0⟩ rfl (by norm_num) (by norm_num)]
    ring_nf
  have h02 : calculateDistance ⟨0, 0⟩ ⟨2, 0⟩ = 2 * (6371 * (Real.pi / 180)) := by
    rw [calcDist_meridian ⟨0, 0⟩ ⟨2, 0⟩ rfl (by norm_num) (by norm_num)]
    ring_nf
  have h13 : calculateDistance ⟨1, 0⟩ ⟨3, 0⟩ = 2 * (6371 * (Real.pi / 180)) := by
    rw [calcDist_meridian ⟨1, 0⟩ ⟨3, 0⟩ rfl (by norm_num) (by norm_num)]
    ring_nf
  have h21 : calculateDistance ⟨2, 0⟩ ⟨1, 0⟩ = 6371 * (Real.pi / 180) := by
    rw [calcDist_symm]; exact h12
  have h20 : calculateDistance ⟨2, 0⟩ ⟨0, 0⟩ = 2 * (6371 * (Real.pi / 180)) := by
    rw [calcDist_symm]; exact h02
  have hdin : calculateRouteDistance
      ([⟨0, 0⟩, ⟨1, 0⟩, ⟨2, 0⟩, ⟨3, 0⟩] : List Location)
      = 3 * (6371 * (Real.pi / 180)) := by
    show calculateDistance ⟨0, 0⟩ ⟨1, 0⟩ + (calculateDistance ⟨1, 0⟩ ⟨2, 0⟩
      + (calculateDistance ⟨2, 0⟩ ⟨3, 0⟩ + 0)) = 3 * (6371 * (Real.pi / 180))
    rw [h01, h12, h23]
    ring
  have hswap : swapSeg [⟨0, 0⟩, ⟨1, 0⟩, ⟨2, 0⟩, ⟨3, 0⟩] 1 2
      = ([⟨0, 0⟩, ⟨2, 0⟩, ⟨1, 0⟩, ⟨3, 0⟩] : List Location) := rfl
  have hdsw : calculateRouteDistance
      ([⟨0, 0⟩, ⟨2, 0⟩, ⟨1, 0⟩, ⟨3, 0⟩] : List Location)
      = 5 * (6371 * (Real.pi / 180)) := by
    show calculateDistance ⟨0, 0⟩ ⟨2, 0⟩ + (calculateDistance ⟨2, 0⟩ ⟨1, 0⟩
      + (calculateDistance ⟨1, 0⟩ ⟨3, 0⟩ + 0)) = 5 * (6371 * (Real.pi / 180))
    rw [h02, h21, h13]
    ring
  have hcond : ¬ (calculateRouteDistance
        (swapSeg [⟨0, 0⟩, ⟨1, 0⟩, ⟨2, 0⟩, ⟨3, 0⟩] 1 2)
      < calculateRouteDistance
        ([⟨0, 0⟩, ⟨1, 0⟩, ⟨2, 0⟩, ⟨3, 0⟩] : List Location) - 0.01) := by
    rw [hswap, hdsw, hdin]
    intro hlt
    nlinarith
  have hfind : findImprove [⟨0, 0⟩, ⟨1, 0⟩, ⟨2, 0⟩, ⟨3, 0⟩] = none := by
    unfold findImprove
    rw [List.findSome?_eq_none_iff]
    intro i hi
    rw [List.mem_range'_1] at hi
    have hi4 : ([⟨0, 0⟩, ⟨1, 0⟩, ⟨2, 0⟩, ⟨3, 0⟩] : List Location).length = 4 := rfl
    rw [hi4] at hi
    have : i = 1 := by omega
    subst this
    rw [List.findSome?_eq_none_iff]
    intro j hj
    rw [List.mem_range'_1, hi4] at hj
    have : j = 2 := by omega
    subst this
    rw [if_neg hcond]
  have hloop : twoOptLoop [⟨0, 0⟩, ⟨1, 0⟩, ⟨2, 0⟩, ⟨3, 0⟩] 50
      = [⟨0, 0⟩, ⟨1, 0⟩, ⟨2, 0⟩, ⟨3, 0⟩] :=
    twoOptLoop_of_none _ hfind 50
  have himp : improve2Opt [⟨0, 0⟩, ⟨1, 0⟩, ⟨2, 0⟩, ⟨3, 0⟩] 50
      = ([⟨0, 0⟩, ⟨1, 0⟩, ⟨2, 0⟩, ⟨0, 0⟩] : List Location) := by
    rw [improve2Opt, if_neg (by norm_num), hloop]
    rfl
  have hdout : calculateRouteDistance
      ([⟨0, 0⟩, ⟨1, 0⟩, ⟨2, 0⟩, ⟨0, 0⟩] : List Location)
      = 4 * (6371 * (Real.pi / 180)) := by
    show calculateDistance ⟨0, 0⟩ ⟨1, 0⟩ + (calculateDistance ⟨1, 0⟩ ⟨2, 0⟩
      + (calculateDistance ⟨2, 0⟩ ⟨0, 0⟩ + 0)) = 4 * (6371 * (Real.pi / 180))
    rw [h01, h12, h20]
    ring
  rw [himp, hdout, hdin]
  intro hle
  nlinarith

/-- Candidate route of the source, interface RouteCandidate. -/
structure RouteCandidate where
  vehicleId : String
  route : List Location
  distance : ℝ
  generation : ℕ

/-- Progress snapshot of the source, interface OptimizationProgress; the
driver passes one such value to the progress callback per generation, so the
list of snapshots below records the callback invocations in order. -/
structure OptimizationProgress where
  generation : ℕ
  routes : List RouteCandidate
  totalDistance : ℝ
  isBest : Bool

/-- Total distance of a member, the reduce over route distances with
initial value 0. -/
noncomputable def totalDist (routes : List RouteCandidate) : ℝ :=
  routes.foldl (fun sum r => sum + r.distance) 0

/-- Number of generations of the driver loop. -/
def generations : ℕ := 10

/-- Population size per generation. -/
def populationSize : ℕ := 8

/-- Inner cluster loop of one population member: empty clusters are skipped
(the vehicle index still advances), a route is generated with the per-member
randomness, 2-opt refinement applies only after generation index 3, with a
budget of 50 after index 8 and 30 before. -/
noncomputable def buildRoutes :
    List (List Site) → ℕ → Location → ℕ → ℕ → RNG → List RouteCandidate × RNG
  | [], _, _, _, _, rng => ([], rng)
  | cl :: rest, clusterIndex, depot, gen, individual, rng =>
    if cl.length = 0 then buildRoutes rest (clusterIndex + 1) depot gen individual rng
    else
      let r1 := generateRoute depot cl (individualRandomFactor gen individual) rng
      let route := if 3 < gen then improve2Opt r1.1 (if 8 < gen then 50 else 30)
        else r1.1
      let rest2 := buildRoutes rest (clusterIndex + 1) depot gen individual r1.2
      ({ vehicleId := "Truck-" ++ (Char.ofNat (65 + clusterIndex)).toString,
         route := route,
         distance := calculateRouteDistance route,
         generation := gen } :: rest2.1, rest2.2)

/-- Population loop of one generation: members are built in order of member
index, threading the draw stream. -/
noncomputable def buildPopulationFrom (clusters : List (List Site))
    (depot : Location) (gen : ℕ) :
    ℕ → ℕ → RNG → List (List RouteCandidate) × RNG
  | _, 0, rng => ([], rng)
  | individual, count + 1, rng =>
    let r := buildRoutes clusters 0 depot gen individual rng
    let rest := buildPopulationFrom clusters depot gen (individual + 1) count r.2
    (r.1 :: rest.1, rest.2)

/-- Reduce of the source selecting the member with the smallest total
distance, first member seeds the accumulator, strict improvement only. -/
noncomputable def bestOfPopulation :
    List (List RouteCandidate) → List RouteCandidate
  | [] => []
  | first :: rest => rest.foldl (fun best current =>
      if totalDist current < totalDist best then current else best) first

/-- Driver loop state: running global best, its distance (JavaScript
Infinity modelled as the top element), draw stream, and the snapshots passed
to the callback so far. -/
structure DriverState where
  bestSolution : List RouteCandidate
  bestTotalDistance : WithTop ℝ
  rng : RNG
  snapshots : List OptimizationProgress

/-- One generation of the source optimizeWithProgress loop: build the
population, select the generation best, compare strictly against the
running best, update it on strict improvement, and emit the snapshot. -/
noncomputable def runGeneration (clusters : List (List Site)) (depot : Location)
    (st : DriverState) (gen : ℕ) : DriverState :=
  let pr := buildPopulationFrom clusters depot gen 0 populationSize st.rng
  let bestInGeneration := bestOfPopulation pr.1
  let generationBestDistance := totalDist bestInGeneration
  let isBest := decide ((generationBestDistance : WithTop ℝ) < st.bestTotalDistance)
  { bestSolution := if isBest then bestInGeneration else st.bestSolution,
    bestTotalDistance := if isBest then (generationBestDistance : WithTop ℝ)
      else st.bestTotalDistance,
    rng := pr.2,
    snapshots := st.snapshots
      ++ [⟨gen + 1, bestInGeneration, generationBestDistance, isBest⟩] }

/-- Source entry point optimizeWithProgress: consolidate, select by
priority, cluster, then run the fixed number of generations; the result is
the returned global best together with the emitted snapshots. -/
noncomputable def optimizeWithProgress (sites : List Site) (depot : Location)
    (numVehicles : ℕ) (rng : RNG) :
    List RouteCandidate × List OptimizationProgress :=
  let consolidatedSites := consolidateSiteTasks sites
  let prioritySites := selectWeeklyPriorityTasks consolidatedSites
    WEEKLY_PRIORITY_CAPACITY
  let clusters := clusterSites prioritySites numVehicles
  let final := (List.range generations).foldl (runGeneration clusters depot)
    ⟨[], ⊤, rng, []⟩
  (final.bestSolution, final.snapshots)

/-- Running minimum of a list of snapshot distances, starting at the top
element (JavaScript Infinity). -/
noncomputable def minDistList (l : List ℝ) : WithTop ℝ :=
  l.foldl (fun (m : WithTop ℝ) (x : ℝ) => min m ((x : WithTop ℝ))) ⊤

theorem minDistList_append_one (l : List ℝ) (d : ℝ) :
    minDistList (l ++ [d]) = min (minDistList l) ((d : WithTop ℝ)) := by
  unfold minDistList
  rw [List.foldl_append]
  rfl

theorem ite_decide_min (B : WithTop ℝ) (d : ℝ) :
    (if (decide ((d : WithTop ℝ) < B)) = true then ((d : WithTop ℝ)) else B)
      = min B ((d : WithTop ℝ)) := by
  by_cases h : (d : WithTop ℝ) < B
  · rw [decide_eq_true h, if_pos rfl, min_eq_right h.le]
  · rw [decide_eq_false h, if_neg Bool.false_ne_true,
      min_eq_left (le_of_not_lt h)]

/-- Loop invariant of the driver: the running best distance is the minimum
of the snapshot distances so far (top before the first generation), the
running best solution realises it once a generation has run, and every
recorded snapshot was flagged best exactly when its distance was strictly
below the minimum of the earlier snapshots. -/
def DriverInv (st : DriverState) : Prop :=
  st.bestTotalDistance = minDistList (st.snapshots.map (fun s => s.totalDistance))
  ∧ (st.snapshots = [] → st.bestTotalDistance = ⊤)
  ∧ (st.snapshots ≠ [] →
      ((totalDist st.bestSolution : WithTop ℝ)) = st.bestTotalDistance)
  ∧ (∀ g s, st.snapshots[g]? = some s →
      (s.isBest = true ↔ (s.totalDistance : WithTop ℝ)
        < minDistList ((st.snapshots.take g).map (fun x => x.totalDistance))))

theorem driverInv_init (rng : RNG) :
    DriverInv ⟨[], ⊤, rng, []⟩ := by
  refine ⟨rfl, fun _ => rfl, fun h => absurd rfl h, ?_⟩
  intro g s hs
  simp at hs

theorem driverInv_step (clusters : List (List Site)) (depot : Location)
    (st : DriverState) (gen : ℕ) (h : DriverInv st) :
    DriverInv (runGeneration clusters depot st gen) := by
  obtain ⟨h1, h2, h3, h4⟩ := h
  simp only [runGeneration, DriverInv]
  refine ⟨?_, ?_, ?_, ?_⟩
  · rw [List.map_append]
    simp only [List.map_cons, List.map_nil]
    rw [minDistList_append_one, ← h1, ite_decide_min]
  · intro habs
    simp at habs
  · intro _
    by_cases hlt : ((totalDist (bestOfPopulation
        (buildPopulationFrom clusters depot gen 0 populationSize st.rng).1)
        : WithTop ℝ)) < st.bestTotalDistance
    · rw [decide_eq_true hlt, if_pos rfl, if_pos rfl]
    · rw [decide_eq_false hlt, if_neg Bool.false_ne_true,
        if_neg Bool.false_ne_true]
      rcases hS : st.snapshots with _ | ⟨s0, S0⟩
      · exfalso
        rw [h2 hS] at hlt
        exact hlt (WithTop.coe_lt_top _)
      · exact h3 (by rw [hS]; exact List.cons_ne_nil s0 S0)
  · intro g s hs
    rcases lt_trichotomy g st.snapshots.length with hg | hg | hg
    · rw [List.getElem?_append_left hg] at hs
      have htake : ∀ (T : List OptimizationProgress),
          (st.snapshots ++ T).take g = st.snapshots.take g := by
        intro T
        rw [List.take_append_eq_append_take]
        have : g - st.snapshots.length = 0 := by omega
        rw [this]
        simp
      rw [htake]
      exact h4 g s hs
    · subst hg
      rw [List.getElem?_append_right (le_refl _)] at hs
      simp only [Nat.sub_self, List.getElem?_cons_zero] at hs
      have hs2 := Option.some_inj.mp hs
      subst hs2
      rw [List.take_append_eq_append_take, Nat.sub_self]
      simp only [List.take_zero, List.append_nil, List.take_length]
      simp only [decide_eq_true_eq]
      rw [← h1]
    · rw [List.getElem?_eq_none] at hs
      · cases hs
      · simp only [List.length_append, List.length_cons, List.length_nil]
        omega

theorem driverInv_fold (clusters : List (List Site)) (depot : Location)
    (gens : List ℕ) : ∀ (st : DriverState), DriverInv st →
    DriverInv (gens.foldl (runGeneration clusters depot) st) := by
  induction gens with
  | nil => intro st h; exact h
  | cons g gs ih =>
    intro st h
    exact ih _ (driverInv_step clusters depot st g h)

theorem driver_fold_snapshots_gens (clusters : List (List Site))
    (depot : Location) (gens : List ℕ) : ∀ (st : DriverState),
    ((gens.foldl (runGeneration clusters depot) st).snapshots).map
        (fun s => s.generation)
      = (st.snapshots.map (fun s => s.generation))
        ++ gens.map (fun g => g + 1) := by
  induction gens with
  | nil => intro st; simp
  | cons g gs ih =>
    intro st
    rw [List.foldl_cons, ih (runGeneration clusters depot st g)]
    simp only [runGeneration, List.map_append, List.map_cons, List.map_nil]
    rw [List.append_assoc, List.singleton_append]

theorem range_map_succ_eq_range' (n : ℕ) :
    (List.range n).map (fun g => g + 1) = List.range' 1 n := by
  rw [List.range'_eq_map_range]
  apply List.map_congr_left
  intro g _
  omega

theorem optimize_final_state (sites : List Site) (depot : Location)
    (k : ℕ) (rng : RNG) :
    optimizeWithProgress sites depot k rng
      = (((List.range generations).foldl
          (runGeneration (clusterSites (selectWeeklyPriorityTasks
            (consolidateSiteTasks sites) WEEKLY_PRIORITY_CAPACITY) k) depot)
          ⟨[], ⊤, rng, []⟩).bestSolution,
        ((List.range generations).foldl
          (runGeneration (clusterSites (selectWeeklyPriorityTasks
            (consolidateSiteTasks sites) WEEKLY_PRIORITY_CAPACITY) k) depot)
          ⟨[], ⊤, rng, []⟩).snapshots) := rfl

/-- C7: every run emits exactly 10 snapshots, their generation indices are
1 through 10 in order (the model records callback invocations as a list, in
invocation order), and the distance of the returned global best equals the
running minimum over all emitted snapshot distances. -/
theorem c7_driver_snapshots (sites : List Site) (depot : Location)
    (k : ℕ) (rng : RNG) :
    (optimizeWithProgress sites depot k rng).2.length = 10
    ∧ (optimizeWithProgress sites depot k rng).2.map (fun s => s.generation)
        = List.range' 1 10
    ∧ ((totalDist (optimizeWithProgress sites depot k rng).1 : WithTop ℝ))
        = minDistList ((optimizeWithProgress sites depot k rng).2.map
            (fun s => s.totalDistance)) := by
  rw [optimize_final_state]
  set clusters := clusterSites (selectWeeklyPriorityTasks
    (consolidateSiteTasks sites) WEEKLY_PRIORITY_CAPACITY) k with hcl
  have hgens := driver_fold_snapshots_gens clusters depot
    (List.range generations) ⟨[], ⊤, rng, []⟩
  simp only [List.map_nil, List.nil_append] at hgens
  rw [range_map_succ_eq_range'] at hgens
  have hinv := driverInv_fold clusters depot (List.range generations)
    ⟨[], ⊤, rng, []⟩ (driverInv_init rng)
  obtain ⟨h1, _, h3, _⟩ := hinv
  have hlen : ((List.range generations).foldl (runGeneration clusters depot)
      ⟨[], ⊤, rng, []⟩).snapshots.length = 10 := by
    have := congrArg List.length hgens
    simpa using this
  refine ⟨hlen, hgens, ?_⟩
  rw [h3 ?_, h1]
  intro habs
  rw [habs] at hlen
  simp at hlen

/-- C1, amended: a snapshot is flagged best exactly when its distance is
strictly below the minimum of all earlier snapshot distances (the running
best, which starts at infinity); a later generation whose distance merely
equals the running best is flagged false, because the source compares with
strict less-than. -/
theorem c1_isBest_iff_strict (sites : List Site) (depot : Location)
    (k : ℕ) (rng : RNG) (g : ℕ) (s : OptimizationProgress)
    (hs : (optimizeWithProgress sites depot k rng).2[g]? = some s) :
    (s.isBest = true ↔ (s.totalDistance : WithTop ℝ)
      < minDistList (((optimizeWithProgress sites depot k rng).2.take g).map
          (fun x => x.totalDistance))) := by
  rw [optimize_final_state] at hs ⊢
  set clusters := clusterSites (selectWeeklyPriorityTasks
    (consolidateSiteTasks sites) WEEKLY_PRIORITY_CAPACITY) k with hcl
  have hinv := driverInv_fold clusters depot (List.range generations)
    ⟨[], ⊤, rng, []⟩ (driverInv_init rng)
  obtain ⟨_, _, _, h4⟩ := hinv
  exact h4 g s hs

theorem buildPopulationFrom_nil (depot : Location) (gen : ℕ) :
    ∀ (count individual : ℕ) (rng : RNG),
    buildPopulationFrom [] depot gen individual count rng
      = (List.replicate count [], rng) := by
  intro count
  induction count with
  | zero => intro individual rng; rfl
  | succ n ih =>
    intro individual rng
    rw [buildPopulationFrom]
    show ((([] : List RouteCandidate), rng).1 ::
        (buildPopulationFrom [] depot gen (individual + 1) n
          (([] : List RouteCandidate), rng).2).1,
      (buildPopulationFrom [] depot gen (individual + 1) n
          (([] : List RouteCandidate), rng).2).2)
      = (List.replicate (n + 1) [], rng)
    rw [ih (individual + 1) rng]
    rw [List.replicate_succ]

theorem bestOfPopulation_replicate_nil (n : ℕ) :
    bestOfPopulation (List.replicate (n + 1) ([] : List RouteCandidate))
      = [] := by
  have haux : ∀ m, (List.replicate m ([] : List RouteCandidate)).foldl
      (fun best current =>
        if totalDist current < totalDist best then current else best) [] = [] := by
    intro m
    induction m with
    | zero => rfl
    | succ m2 ih =>
      rw [List.replicate_succ, List.foldl_cons, if_neg (lt_irrefl _)]
      exact ih
  rw [List.replicate_succ]
  exact haux n

theorem runGeneration_nil_top (depot : Location) (st : DriverState) (gen : ℕ)
    (hB : st.bestTotalDistance = ⊤) :
    runGeneration [] depot st gen
      = ⟨[], (((0 : ℝ)) : WithTop ℝ), st.rng,
          st.snapshots ++ [⟨gen + 1, [], 0, true⟩]⟩ := by
  have hpop := buildPopulationFrom_nil depot gen populationSize 0 st.rng
  have hbest : bestOfPopulation (List.replicate populationSize
      ([] : List RouteCandidate)) = [] := bestOfPopulation_replicate_nil 7
  simp only [runGeneration, hpop, hbest]
  have hdist : totalDist ([] : List RouteCandidate) = 0 := rfl
  rw [hdist, hB]
  have htrue : decide ((((0 : ℝ)) : WithTop ℝ) < (⊤ : WithTop ℝ)) = true :=
    decide_eq_true (WithTop.coe_lt_top (0 : ℝ))
  rw [htrue, if_pos rfl, if_pos rfl]

theorem runGeneration_nil_zero (depot : Location) (st : DriverState) (gen : ℕ)
    (hB : st.bestTotalDistance = (((0 : ℝ)) : WithTop ℝ)) :
    runGeneration [] depot st gen
      = ⟨st.bestSolution, st.bestTotalDistance, st.rng,
          st.snapshots ++ [⟨gen + 1, [], 0, false⟩]⟩ := by
  have hpop := buildPopulationFrom_nil depot gen populationSize 0 st.rng
  have hbest : bestOfPopulation (List.replicate populationSize
      ([] : List RouteCandidate)) = [] := bestOfPopulation_replicate_nil 7
  simp only [runGeneration, hpop, hbest]
  have hdist : totalDist ([] : List RouteCandidate) = 0 := rfl
  rw [hdist, hB]
  have hfalse : decide ((((0 : ℝ)) : WithTop ℝ) < (((0 : ℝ)) : WithTop ℝ))
      = false := decide_eq_false (lt_irrefl _)
  rw [hfalse, if_neg Bool.false_ne_true, if_neg Bool.false_ne_true]

theorem fold_nil_zero (depot : Location) (gens : List ℕ) :
    ∀ (st : DriverState),
    st.bestTotalDistance = (((0 : ℝ)) : WithTop ℝ) →
    (gens.foldl (runGeneration [] depot) st).snapshots
      = st.snapshots ++ gens.map
          (fun g => (⟨g + 1, [], 0, false⟩ : OptimizationProgress)) := by
  induction gens with
  | nil => intro st _; simp
  | cons g gs ih =>
    intro st hB
    rw [List.foldl_cons, runGeneration_nil_zero depot st g hB]
    have hih := ih (⟨st.bestSolution, st.bestTotalDistance, st.rng,
      st.snapshots ++ [(⟨g + 1, [], 0, false⟩ : OptimizationProgress)]⟩ :
        DriverState) hB
    rw [hih]
    simp only [List.map_cons]
    rw [List.append_assoc, List.singleton_append]

theorem optimize_no_tasks_snapshots (sites : List Site) (depot : Location)
    (k : ℕ) (rng : RNG) (h : ∀ s ∈ sites, s.transport_tasks = []) :
    (optimizeWithProgress sites depot k rng).2
      = (List.range generations).map
          (fun g => (⟨g + 1, [], 0, decide (g = 0)⟩ : OptimizationProgress)) := by
  have hcons : consolidateSiteTasks sites = [] := by
    unfold consolidateSiteTasks
    apply List.filter_eq_nil_iff.mpr
    intro a ha
    rw [h a ha]
    simp
  have hsel : selectWeeklyPriorityTasks (consolidateSiteTasks sites)
      WEEKLY_PRIORITY_CAPACITY = [] := by
    rw [hcons]
    rfl
  have hclus : clusterSites (selectWeeklyPriorityTasks
      (consolidateSiteTasks sites) WEEKLY_PRIORITY_CAPACITY) k = [] := by
    rw [hsel]
    unfold clusterSites
    rw [if_pos (show ([] : List Site).length = 0 from rfl)]
  rw [optimize_final_state, hclus]
  have hr10 : List.range generations = 0 :: List.range' 1 9 := by decide
  rw [hr10, List.foldl_cons,
    runGeneration_nil_top depot ⟨[], ⊤, rng, []⟩ 0 rfl]
  have hrest := fold_nil_zero depot (List.range' 1 9)
    (⟨[], (((0 : ℝ)) : WithTop ℝ), rng,
      [] ++ [(⟨0 + 1, [], 0, true⟩ : OptimizationProgress)]⟩ : DriverState) rfl
  rw [hrest]
  simp only [List.nil_append, List.map_cons, List.singleton_append]
  rfl

/-- C8: when no input site has any task, the selector returns the empty
list, the clusterer returns no clusters, and the driver still emits all 10
snapshots, each with zero routes and total distance zero, flagged best on
generation 1 only (zero is strictly below infinity, and never strictly below
zero afterwards). -/
theorem c8_no_tasks_degenerate (sites : List Site) (depot : Location)
    (k : ℕ) (rng : RNG) (h : ∀ s ∈ sites, s.transport_tasks = []) :
    selectWeeklyPriorityTasks (consolidateSiteTasks sites)
        WEEKLY_PRIORITY_CAPACITY = []
    ∧ clusterSites (selectWeeklyPriorityTasks (consolidateSiteTasks sites)
        WEEKLY_PRIORITY_CAPACITY) k = []
    ∧ (optimizeWithProgress sites depot k rng).2
        = (List.range 10).map
            (fun g => (⟨g + 1, [], 0, decide (g = 0)⟩ : OptimizationProgress)) := by
  have hcons : consolidateSiteTasks sites = [] := by
    unfold consolidateSiteTasks
    apply List.filter_eq_nil_iff.mpr
    intro a ha
    rw [h a ha]
    simp
  have hsel : selectWeeklyPriorityTasks (consolidateSiteTasks sites)
      WEEKLY_PRIORITY_CAPACITY = [] := by
    rw [hcons]
    rfl
  refine ⟨hsel, ?_, optimize_no_tasks_snapshots sites depot k rng h⟩
  rw [hsel]
  unfold clusterSites
  rw [if_pos (show ([] : List Site).length = 0 from rfl)]

/-- C8, witness at the empty site list. -/
theorem c8_w :
    selectWeeklyPriorityTasks (consolidateSiteTasks [])
        WEEKLY_PRIORITY_CAPACITY = []
    ∧ clusterSites (selectWeeklyPriorityTasks (consolidateSiteTasks [])
        WEEKLY_PRIORITY_CAPACITY) 2 = []
    ∧ (optimizeWithProgress [] ⟨0, 0⟩ 2 (fun _ => 0)).2
        = (List.range 10).map
            (fun g => (⟨g + 1, [], 0, decide (g = 0)⟩ : OptimizationProgress)) :=
  c8_no_tasks_degenerate [] ⟨0, 0⟩ 2 (fun _ => 0)
    (fun s hs => absurd hs (List.not_mem_nil s))

/-- C1, counterexample to the claim as stated: in the degenerate run on an
empty site list every generation has distance 0; generation 2 ties the
running best (0, set by generation 1), so under the claimed less-or-equal
rule its snapshot would be flagged best, but the source compares strictly
and flags it false. -/
theorem c1_cex :
    (optimizeWithProgress [] ⟨0, 0⟩ 1 (fun _ => 0)).2[0]?
        = some ⟨1, [], 0, true⟩
    ∧ (optimizeWithProgress [] ⟨0, 0⟩ 1 (fun _ => 0)).2[1]?
        = some ⟨2, [], 0, false⟩ := by
  rw [optimize_no_tasks_snapshots [] ⟨0, 0⟩ 1 (fun _ => 0)
    (fun s hs => absurd hs (List.not_mem_nil s))]
  constructor
  · rfl
  · rfl

/-- C1, witness of the amended theorem at the degenerate run, generation 2,
whose snapshot ties the minimum of the earlier distances and is flagged
false. -/
theorem c1_w :
    ((⟨2, [], 0, false⟩ : OptimizationProgress).isBest = true
      ↔ (((⟨2, [], 0, false⟩ : OptimizationProgress).totalDistance : WithTop ℝ))
        < minDistList
            (((optimizeWithProgress [] ⟨0, 0⟩ 1 (fun _ => 0)).2.take 1).map
              (fun x => x.totalDistance))) :=
  c1_isBest_iff_strict [] ⟨0, 0⟩ 1 (fun _ => 0) 1 ⟨2, [], 0, false⟩
    (by rw [optimize_no_tasks_snapshots [] ⟨0, 0⟩ 1 (fun _ => 0)
      (fun s hs => absurd hs (List.not_mem_nil s))]
        rfl)
